import Mathlib

/-!
Verification of the LOCUS LiDAR-inertial odometry front end.

The development shallowly embeds the data model and operations of the three
translation units `MeasurementSynchronizer.h`, `LoFrontend.h` and
`PointCloudOdometry.h`.  The repository ships only the headers: apart from
`MeasurementSynchronizer::CompareTimestamps` (defined inline in the header and
transcribed verbatim below) every function body is reconstructed from the
design document, and each such definition carries a doc comment starting with
`Modelled from the spec:` naming the missing body.

Timestamps are embedded as `Int` (an ordered time axis; all claims about
timestamps are order-theoretic).  Quaternions, vectors and rigid transforms are
embedded over `ℚ` so that every definition is executable.
-/

namespace Locus

/-! ### Measurement synchronizer: data model (`MeasurementSynchronizer.h`) -/

/-- The `sensor_type` enum of `MeasurementSynchronizer.h` (lines 57-63), with
enumerators in declaration order `POINTCLOUD, PCL_POINTCLOUD, IMU, ODOM, GT`. -/
inductive SensorType
  | POINTCLOUD
  | PCL_POINTCLOUD
  | IMU
  | ODOM
  | GT
deriving DecidableEq

/-- Numeric value of each `sensor_type` enumerator, following C++ enumerator
numbering in declaration order. -/
def SensorType.val : SensorType → Nat
  | .POINTCLOUD => 0
  | .PCL_POINTCLOUD => 1
  | .IMU => 2
  | .ODOM => 3
  | .GT => 4

/-- The `TimestampedType` record of `MeasurementSynchronizer.h` (lines 138-146):
a timestamp, a sensor type, and the index of the message within its queue. -/
structure TimestampedType where
  time : Int
  type : SensorType
  index : Nat
deriving DecidableEq

/-- `CompareTimestamps`, transcribed from `MeasurementSynchronizer.h` lines
149-153: `lhs` precedes `rhs` when its time is smaller, or when the times are
equal and its type enumerator is smaller. -/
def CompareTimestamps (lhs rhs : TimestampedType) : Bool :=
  decide (lhs.time < rhs.time) ||
    ((lhs.time == rhs.time) && decide (lhs.type.val < rhs.type.val))

/-- The non-strict order induced by the strict comparator `CompareTimestamps`,
exactly the order `std::sort` establishes between adjacent elements:
`a` may come before `b` when `b` does not strictly precede `a`. -/
def TTle (a b : TimestampedType) : Prop := CompareTimestamps b a = false

instance : DecidableRel TTle := fun a b =>
  inferInstanceAs (Decidable (CompareTimestamps b a = false))

/-- Synchronizer state: the five per-type pending queues (each element
abstracted to its header timestamp), the replay cursor `pending_index_` and the
combined ordering `sensor_ordering_` (`MeasurementSynchronizer.h` lines
155-163). -/
structure SyncState where
  pending_pclds : List Int
  pending_pcl_pclds : List Int
  pending_imus : List Int
  pending_odoms : List Int
  pending_gts : List Int
  pending_index : Nat
  sensor_ordering : List TimestampedType
deriving DecidableEq

/-- The queue of the given sensor type. -/
def SyncState.queueOf (s : SyncState) : SensorType → List Int
  | .POINTCLOUD => s.pending_pclds
  | .PCL_POINTCLOUD => s.pending_pcl_pclds
  | .IMU => s.pending_imus
  | .ODOM => s.pending_odoms
  | .GT => s.pending_gts

/-- One `(timestamp, type, index-within-its-queue)` record per pending message
of one queue. -/
def tagQueue (ty : SensorType) (q : List Int) : List TimestampedType :=
  (List.range q.length).map (fun i => ⟨q.getD i 0, ty, i⟩)

/-- All `(timestamp, type, index)` records of all five queues. -/
def SyncState.allEntries (s : SyncState) : List TimestampedType :=
  tagQueue .POINTCLOUD s.pending_pclds ++
    tagQueue .PCL_POINTCLOUD s.pending_pcl_pclds ++
    tagQueue .IMU s.pending_imus ++
    tagQueue .ODOM s.pending_odoms ++
    tagQueue .GT s.pending_gts

/-- Modelled from the spec: the body of `MeasurementSynchronizer::SortMessages`
is not in the repository.  Per the design document it builds one combined
ordering by recording `(timestamp, type, index-within-its-queue)` for every
pending message in every queue and sorting ascending with the comparator
`CompareTimestamps` (which is in the header), positioning the replay cursor at
the start of the rebuilt ordering. -/
def SortMessages (s : SyncState) : SyncState :=
  { s with
    sensor_ordering := List.insertionSort TTle s.allEntries
    pending_index := 0 }

/-- Modelled from the spec: the body of
`MeasurementSynchronizer::GetNextMessage` is not in the repository.  Per the
design document it returns the next `(type, index)` pair of the combined
ordering and advances the internal cursor; it fails (first component `none`)
when the cursor has reached the end. -/
def GetNextMessage (s : SyncState) : Option (SensorType × Nat) × SyncState :=
  match s.sensor_ordering[s.pending_index]? with
  | none => (none, s)
  | some e => (some (e.type, e.index), { s with pending_index := s.pending_index + 1 })

/-- Modelled from the spec: the body of
`MeasurementSynchronizer::NextMessageExists` is not in the repository.  Per the
design document it reports whether the cursor has reached the end of the
combined ordering. -/
def NextMessageExists (s : SyncState) : Bool :=
  decide (s.pending_index < s.sensor_ordering.length)

/-- Modelled from the spec: the body of
`MeasurementSynchronizer::ClearMessages` is not in the repository.  Per the
design document it empties all queues and resets the cursor and the ordering. -/
def ClearMessages (_s : SyncState) : SyncState :=
  ⟨[], [], [], [], [], 0, []⟩

/-- The synchronizer state after `n` calls of `GetNextMessage`. -/
def stateAfterGetNext (s : SyncState) : Nat → SyncState
  | 0 => s
  | n + 1 => stateAfterGetNext (GetNextMessage s).2 n

/-- The result yielded by the `(n+1)`-st call of `GetNextMessage` (the calls
being numbered from `0`). -/
def nthYielded (s : SyncState) (n : Nat) : Option (SensorType × Nat) :=
  (GetNextMessage (stateAfterGetNext s n)).1

/-- The header timestamp stored at position `i` of the queue of type `ty`. -/
def SyncState.stampOf (s : SyncState) (ty : SensorType) (i : Nat) : Option Int :=
  (s.queueOf ty)[i]?

/-! ### Time-indexed measurement buffers (`LoFrontend.h`)

`ImuBuffer`, `OdometryBuffer` and `PoseStampedBuffer` are `std::map<double, T>`
(`LoFrontend.h` lines 57-59): orderings from timestamp to at most one
measurement per timestamp.  They are embedded as association lists whose keys
are strictly increasing (`SortedKeys`), the `std::map` representation
invariant. -/

/-- Keys of the association list are strictly increasing, as in a `std::map`
iterated in order. -/
abbrev SortedKeys {α : Type} (buf : List (Int × α)) : Prop :=
  List.Pairwise (fun a b => a.1 < b.1) buf

/-- `std::map::insert`: place the new entry at its key position; when the key
is already present, keep the stored entry unchanged (no overwrite). -/
def mapInsert {α : Type} (k : Int) (v : α) : List (Int × α) → List (Int × α)
  | [] => [(k, v)]
  | e :: rest =>
    if k < e.1 then (k, v) :: e :: rest
    else if k = e.1 then e :: rest
    else e :: mapInsert k v rest

/-- Modelled from the spec: the body of `LoFrontend::InsertMsgInBuffer` (and of
the buffer-trimming step of the receiving callbacks) is not in the repository.
Per the design document, `Insert(measurement)` stores the message under its
timestamp and, if the resulting size exceeds the limit, evicts the single
oldest entry (smallest timestamp); the boolean result reports whether the
buffer size actually grew. -/
def InsertMsgInBuffer {α : Type} (limit : Nat) (k : Int) (v : α)
    (buf : List (Int × α)) : Bool × List (Int × α) :=
  let grown := mapInsert k v buf
  (decide (grown.length = buf.length + 1),
    if limit < grown.length then grown.drop 1 else grown)

/-- The buffer produced by a whole sequence of insertions, starting empty. -/
def foldInsertions {α : Type} (limit : Nat) (msgs : List (Int × α)) :
    List (Int × α) :=
  msgs.foldl (fun b m => (InsertMsgInBuffer limit m.1 m.2 b).2) []

/-- Of two stored entries, the one whose timestamp is nearer to the query
(keeping the current candidate on ties). -/
def nearerTo {α : Type} (t : Int) (b e : Int × α) : Int × α :=
  if (e.1 - t).natAbs < (b.1 - t).natAbs then e else b

/-- Modelled from the spec: the body of `LoFrontend::GetMsgAtTime` is not in
the repository.  Per the design document, `LookupAtOrNear(timestamp)` returns
the stored measurement whose timestamp is closest to the query, and reports the
source unavailable on an empty buffer. -/
def GetMsgAtTime {α : Type} (t : Int) (buf : List (Int × α)) :
    Option (Int × α) :=
  buf.foldl
    (fun acc e =>
      match acc with
      | none => some e
      | some b => some (nearerTo t b e))
    none

/-! ### IMU sample screening and the data-integration mode selector
(`LoFrontend.h`) -/

/-- An IMU orientation quaternion as received: each double-precision component
is either a real value (`some`) or NaN (`none`). -/
structure ImuOrientation where
  qx : Option ℚ
  qy : Option ℚ
  qz : Option ℚ
  qw : Option ℚ
deriving DecidableEq

/-- Modelled from the spec: the body of `LoFrontend::CheckNans` is not in the
repository.  Per the design document a malformed sample is one containing any
NaN component in its orientation; `CheckNans` reports whether the sample is
malformed. -/
def CheckNans (q : ImuOrientation) : Bool :=
  q.qx.isNone || q.qy.isNone || q.qz.isNone || q.qw.isNone

/-- The `data_integration_mode_` values, per the design document the
enumeration `{NONE, IMU, ODOMETRY, POSE_STAMPED}` strictly ordered by
preference `IMU > ODOMETRY > POSE_STAMPED > NONE`. -/
inductive IntegrationMode
  | NONE
  | IMU
  | ODOMETRY
  | POSE_STAMPED
deriving DecidableEq

/-- The buffer/flag state of `LoFrontend` read by the mode selector: the
per-source integration enable flags, the IMU frame-consistency flag and the
three auxiliary measurement buffers (`LoFrontend.h` lines 105-107, 175-196).
Odometry and pose-stamped payloads are irrelevant to the claims and abstracted
to `Unit`. -/
structure LoState where
  b_use_imu_integration : Bool
  b_imu_frame_is_correct : Bool
  b_use_odometry_integration : Bool
  b_use_pose_stamped_integration : Bool
  imu_buffer : List (Int × ImuOrientation)
  odometry_buffer : List (Int × Unit)
  pose_stamped_buffer : List (Int × Unit)
deriving DecidableEq

/-- The IMU source is available for the scan at time `t`: a sample near the
scan time exists in the buffer and is free of NaNs. -/
def ImuSampleAvailable (s : LoState) (t : Int) : Bool :=
  match GetMsgAtTime t s.imu_buffer with
  | some e => !CheckNans e.2
  | none => false

/-- IMU availability: integration enabled, IMU frame verified consistent, and
a NaN-free sample near the scan time. -/
def ImuAvailable (s : LoState) (t : Int) : Bool :=
  s.b_use_imu_integration && s.b_imu_frame_is_correct && ImuSampleAvailable s t

/-- Odometry availability: integration enabled and a sample near the scan
time. -/
def OdometryAvailable (s : LoState) (t : Int) : Bool :=
  s.b_use_odometry_integration && (GetMsgAtTime t s.odometry_buffer).isSome

/-- Pose-stamped availability: integration enabled and a sample near the scan
time. -/
def PoseStampedAvailable (s : LoState) (t : Int) : Bool :=
  s.b_use_pose_stamped_integration &&
    (GetMsgAtTime t s.pose_stamped_buffer).isSome

/-- Modelled from the spec: the body of `LoFrontend::SetDataIntegrationMode` is
not in the repository.  Per the design document the selector re-evaluates, on
each scan, the priority cascade IMU, then ODOMETRY, then POSE_STAMPED, then
NONE, as a pure function of the current buffer/flag state. -/
def SetDataIntegrationMode (s : LoState) (t : Int) : IntegrationMode :=
  if ImuAvailable s t then .IMU
  else if OdometryAvailable s t then .ODOMETRY
  else if PoseStampedAvailable s t then .POSE_STAMPED
  else .NONE

/-- Modelled from the spec: the body of `LoFrontend::ImuCallback` is not in the
repository.  Per the design document a malformed sample (NaN in orientation)
is discarded, non-fatally, before reaching the buffer; a well-formed sample is
inserted into the bounded IMU buffer. -/
def ImuCallback (limit : Nat) (s : LoState) (stamp : Int) (q : ImuOrientation) :
    LoState :=
  if CheckNans q then s
  else { s with imu_buffer := (InsertMsgInBuffer limit stamp q s.imu_buffer).2 }

/-- Every sample stored in the buffer is free of NaNs. -/
def CleanBuffer (buf : List (Int × ImuOrientation)) : Prop :=
  ∀ e ∈ buf, CheckNans e.2 = false

/-! ### Rotations, attitude deltas and rigid transforms
(`LoFrontend.h`, `PointCloudOdometry.h`)

Orientations are quaternions over `ℚ`; a nonzero quaternion `q` acts on vectors
by `v ↦ (q ⊗ (0,v) ⊗ q∗) / ‖q‖²`, which embeds `Eigen::Quaterniond` rotation
without square roots (the scale of `q` is immaterial to the action). -/

/-- A quaternion with rational components. -/
structure Quat where
  w : ℚ
  x : ℚ
  y : ℚ
  z : ℚ
deriving DecidableEq

/-- Hamilton product. -/
def Quat.mul (a b : Quat) : Quat :=
  ⟨a.w * b.w - a.x * b.x - a.y * b.y - a.z * b.z,
    a.w * b.x + a.x * b.w + a.y * b.z - a.z * b.y,
    a.w * b.y - a.x * b.z + a.y * b.w + a.z * b.x,
    a.w * b.z + a.x * b.y - a.y * b.x + a.z * b.w⟩

/-- The identity quaternion. -/
def Quat.one : Quat := ⟨1, 0, 0, 0⟩

/-- Squared norm. -/
def Quat.normSq (q : Quat) : ℚ := q.w * q.w + q.x * q.x + q.y * q.y + q.z * q.z

/-- Conjugate. -/
def Quat.conj (q : Quat) : Quat := ⟨q.w, -q.x, -q.y, -q.z⟩

/-- Inverse: the conjugate scaled by the reciprocal squared norm. -/
def Quat.inv (q : Quat) : Quat :=
  ⟨q.w / q.normSq, -q.x / q.normSq, -q.y / q.normSq, -q.z / q.normSq⟩

/-- A 3-vector with rational components. -/
abbrev V3 : Type := ℚ × ℚ × ℚ

/-- Componentwise sum. -/
def addV (a b : V3) : V3 := (a.1 + b.1, a.2.1 + b.2.1, a.2.2 + b.2.2)

/-- Componentwise difference. -/
def subV (a b : V3) : V3 := (a.1 - b.1, a.2.1 - b.2.1, a.2.2 - b.2.2)

/-- The zero vector. -/
def zeroV : V3 := (0, 0, 0)

/-- Squared Euclidean norm. -/
def normSqV (v : V3) : ℚ := v.1 * v.1 + v.2.1 * v.2.1 + v.2.2 * v.2.2

/-- The pure quaternion `(0, v)` of a vector. -/
def Quat.pureQ (v : V3) : Quat := ⟨0, v.1, v.2.1, v.2.2⟩

/-- Rotation of a vector by a (nonzero) quaternion:
`(q ⊗ (0,v) ⊗ q∗) / ‖q‖²`. -/
def RotateV (q : Quat) (v : V3) : V3 :=
  let r := (q.mul (Quat.pureQ v)).mul q.conj
  (r.x / q.normSq, r.y / q.normSq, r.z / q.normSq)

/-- Modelled from the spec: the bodies of `LoFrontend::GetImuDelta` and
`PointCloudOdometry::GetExternalAttitudeChange` are not in the repository.  Per
the design document the attitude delta of a source is the relative rotation
`previous.orientation⁻¹ · current.orientation` (quaternion composition). -/
def GetImuDelta (previous current : Quat) : Quat :=
  previous.inv.mul current

/-- Modelled from the spec: the bodies of `LoFrontend::GetImuYawDelta` and
`PointCloudOdometry::GetExternalAttitudeYawChange` are not in the repository.
Per the design document the yaw-only delta projects the rotation onto the
vertical axis, discarding roll/pitch: it keeps the twist about the vertical
axis, the quaternion `(w, 0, 0, z)` (whose scale is immaterial to the rotation
it represents). -/
def YawOnlyDelta (q : Quat) : Quat := ⟨q.w, 0, 0, q.z⟩

/-- A rigid transform: translation and rotation
(`geometry_utils::Transform3`). -/
structure Transform3 where
  translation : V3
  rotation : Quat
deriving DecidableEq

/-- The identity transform, `gu::Transform3::Identity()`. -/
def Transform3.identity : Transform3 := ⟨zeroV, Quat.one⟩

/-- Composition of rigid transforms, `gu::PoseUpdate`: rotate the second
translation by the first rotation and add, compose the rotations. -/
def PoseUpdate (a b : Transform3) : Transform3 :=
  ⟨addV a.translation (RotateV a.rotation b.translation),
    a.rotation.mul b.rotation⟩

/-! ### Registration transform thresholding (`PointCloudOdometry.h`)

`max_translation_` enters squared (`‖t‖² > max_translation²`).  The rotation
magnitude of a quaternion `q` representing angle `θ` satisfies
`cos²(θ/2) = w²/‖q‖²`, so `θ > max_rotation` is `w² < cos²(max_rotation/2)·‖q‖²`;
the rotation threshold is supplied in this squared-cosine form
(`cosHalfSq = cos²(max_rotation/2)`). -/

/-- The translation magnitude of the transform exceeds the (squared)
translation threshold. -/
def TranslationExceeds (tr : Transform3) (maxTranslationSq : ℚ) : Bool :=
  decide (maxTranslationSq < normSqV tr.translation)

/-- The rotation magnitude of the transform exceeds the rotation threshold,
expressed through the squared cosine of the half angle. -/
def RotationExceeds (tr : Transform3) (cosHalfSq : ℚ) : Bool :=
  decide (tr.rotation.w * tr.rotation.w < cosHalfSq * tr.rotation.normSq)

/-- Modelled from the spec: the body of `PointCloudOdometry::UpdateICP` is not
in the repository.  Per the design document (and the comment at
`PointCloudOdometry.h` lines 122-127), when `transform_thresholding_` is set
and the registration result exceeds `max_translation_` or `max_rotation_`, the
transform is rejected and replaced by the identity; the (possibly rejected)
transform becomes `incremental_estimate_` and is composed onto
`integrated_estimate_`.  Returns `(incremental_estimate_,
integrated_estimate_)`. -/
def UpdateICP (transform_thresholding : Bool) (maxTranslationSq cosHalfSq : ℚ)
    (computed integrated : Transform3) : Transform3 × Transform3 :=
  let inc :=
    if transform_thresholding &&
        (TranslationExceeds computed maxTranslationSq ||
          RotationExceeds computed cosHalfSq) then
      Transform3.identity
    else computed
  (inc, PoseUpdate integrated inc)

/-! ### Keyframe admission (`LoFrontend.h`) -/

/-- The keyframe-admission state: whether a scan has been received before
(`b_pcld_received_`) and the pose of the last admitted keyframe
(`last_keyframe_pose_`, `LoFrontend.h` line 129). -/
structure KeyframeState where
  b_pcld_received : Bool
  last_keyframe_pose : Transform3
deriving DecidableEq

/-- The translation from the last keyframe pose to the current pose exceeds
the (squared) keyframe translation threshold. -/
def KfTranslationExceeds (lastPose pose : Transform3)
    (translationThresholdSq : ℚ) : Bool :=
  decide (translationThresholdSq <
    normSqV (subV pose.translation lastPose.translation))

/-- The rotation from the last keyframe pose to the current pose exceeds the
keyframe rotation threshold (squared-cosine-of-half-angle form, as for
`RotationExceeds`). -/
def KfRotationExceeds (lastPose pose : Transform3) (cosHalfSq : ℚ) : Bool :=
  let d := GetImuDelta lastPose.rotation pose.rotation
  decide (d.w * d.w < cosHalfSq * d.normSq)

/-- Modelled from the spec: the keyframe-admission step of
`LoFrontend::LidarCallback` is not in the repository.  Per the design document
a scan is admitted when it is the very first scan and first-scan-admission is
configured, or the translation from `last_keyframe_pose` exceeds the
translation threshold, or the rotation exceeds the rotation threshold; on
admission `last_keyframe_pose` is set to the current integrated pose.  Returns
the admission decision and the successor state. -/
def KeyframeStep (b_add_first_scan_to_key : Bool)
    (translationThresholdSq cosHalfSq : ℚ) (st : KeyframeState)
    (pose : Transform3) : Bool × KeyframeState :=
  let admitted :=
    (b_add_first_scan_to_key && !st.b_pcld_received) ||
      KfTranslationExceeds st.last_keyframe_pose pose translationThresholdSq ||
      KfRotationExceeds st.last_keyframe_pose pose cosHalfSq
  (admitted, ⟨true, if admitted then pose else st.last_keyframe_pose⟩)

/-! ### Helper lemmas -/

/-- Composing any transform with the identity on the right changes nothing. -/
theorem poseUpdate_identity (a : Transform3) :
    PoseUpdate a Transform3.identity = a := by
  obtain ⟨⟨t1, t2, t3⟩, ⟨w, x, y, z⟩⟩ := a
  simp [PoseUpdate, Transform3.identity, addV, RotateV, Quat.mul, Quat.pureQ,
    Quat.conj, Quat.one, zeroV, Quat.normSq, Transform3.mk.injEq,
    Quat.mk.injEq, Prod.mk.injEq]

/-- Claim C5: the attitude-delta extractor computes
`delta = previous.orientation⁻¹ · current.orientation`; hence the delta of a
sample against itself is the identity rotation, the yaw-only delta of a
pure-yaw rotation equals the full delta, and the yaw-only delta of a pure-roll
rotation acts as the identity on every vector. -/
theorem attitude_delta_properties :
    (∀ q : Quat, q.normSq ≠ 0 → GetImuDelta q q = Quat.one) ∧
    (∀ q : Quat, q.x = 0 → q.y = 0 → YawOnlyDelta q = q) ∧
    (∀ (q : Quat) (v : V3), q.y = 0 → q.z = 0 → q.w ≠ 0 →
      RotateV (YawOnlyDelta q) v = v) := by
  refine ⟨?_, ?_, ?_⟩
  · intro q hq
    obtain ⟨w, x, y, z⟩ := q
    simp only [Quat.normSq] at hq
    simp only [GetImuDelta, Quat.inv, Quat.mul, Quat.one, Quat.normSq,
      Quat.mk.injEq]
    refine ⟨?_, ?_, ?_, ?_⟩ <;> field_simp <;> ring
  · intro q hx hy
    obtain ⟨w, x, y, z⟩ := q
    simp only at hx hy
    simp [YawOnlyDelta, hx, hy]
  · intro q v hy hz hw
    obtain ⟨w, x, y, z⟩ := q
    obtain ⟨v1, v2, v3⟩ := v
    simp only at hy hz hw
    subst hy hz
    simp only [YawOnlyDelta, RotateV, Quat.mul, Quat.pureQ, Quat.conj,
      Quat.normSq, Prod.mk.injEq]
    refine ⟨?_, ?_, ?_⟩ <;> field_simp <;> ring

/-- Witness for C5 at concrete inputs. -/
theorem attitude_delta_properties_witness :
    GetImuDelta ⟨1, 2, 3, 4⟩ ⟨1, 2, 3, 4⟩ = Quat.one ∧
    YawOnlyDelta ⟨3, 0, 0, 5⟩ = ⟨3, 0, 0, 5⟩ ∧
    RotateV (YawOnlyDelta ⟨2, 7, 0, 0⟩) (1, 2, 3) = (1, 2, 3) := by
  obtain ⟨h1, h2, h3⟩ := attitude_delta_properties
  refine ⟨h1 ⟨1, 2, 3, 4⟩ (by norm_num [Quat.normSq]), h2 ⟨3, 0, 0, 5⟩ rfl rfl,
    h3 ⟨2, 7, 0, 0⟩ (1, 2, 3) rfl rfl (by norm_num)⟩

/-- Claim C4: with transform thresholding enabled, a registration result whose
translation magnitude exceeds `max_translation_` or whose rotation magnitude
exceeds `max_rotation_` is replaced by the identity: the incremental estimate
for that scan is the identity and the integrated estimate is unchanged. -/
theorem update_icp_threshold_rejection (maxTranslationSq cosHalfSq : ℚ)
    (computed integrated : Transform3)
    (h : TranslationExceeds computed maxTranslationSq = true ∨
      RotationExceeds computed cosHalfSq = true) :
    UpdateICP true maxTranslationSq cosHalfSq computed integrated =
      (Transform3.identity, integrated) := by
  have hcond : (TranslationExceeds computed maxTranslationSq ||
      RotationExceeds computed cosHalfSq) = true := by
    rcases h with h | h <;> simp [h]
  simp [UpdateICP, hcond, poseUpdate_identity]

/-- Witness for C4: a transform translated by `(2,0,0)` against a squared
translation threshold of `1` is rejected, leaving the integrated estimate
`⟨(5,7,9), ⟨1,2,3,4⟩⟩` untouched. -/
theorem update_icp_threshold_rejection_witness :
    UpdateICP true 1 0 ⟨(2, 0, 0), ⟨1, 0, 0, 0⟩⟩ ⟨(5, 7, 9), ⟨1, 2, 3, 4⟩⟩ =
      (Transform3.identity, ⟨(5, 7, 9), ⟨1, 2, 3, 4⟩⟩) :=
  update_icp_threshold_rejection 1 0 ⟨(2, 0, 0), ⟨1, 0, 0, 0⟩⟩
    ⟨(5, 7, 9), ⟨1, 2, 3, 4⟩⟩ (Or.inl (by norm_num [TranslationExceeds, normSqV]))

/-- Claim C6: a scan is admitted as a keyframe iff it is the very first scan
with first-scan-admission configured, or the translation from
`last_keyframe_pose_` exceeds the translation threshold, or the rotation
exceeds the rotation threshold; a non-first scan within both thresholds is
never admitted; on admission `last_keyframe_pose_` becomes the current pose,
otherwise it is unchanged. -/
theorem keyframe_admission (b_add_first_scan_to_key : Bool)
    (translationThresholdSq cosHalfSq : ℚ) (st : KeyframeState)
    (pose : Transform3) :
    ((KeyframeStep b_add_first_scan_to_key translationThresholdSq cosHalfSq
        st pose).1 = true ↔
      ((st.b_pcld_received = false ∧ b_add_first_scan_to_key = true) ∨
        KfTranslationExceeds st.last_keyframe_pose pose
          translationThresholdSq = true ∨
        KfRotationExceeds st.last_keyframe_pose pose cosHalfSq = true)) ∧
    ((KeyframeStep b_add_first_scan_to_key translationThresholdSq cosHalfSq
        st pose).1 = true →
      (KeyframeStep b_add_first_scan_to_key translationThresholdSq cosHalfSq
        st pose).2.last_keyframe_pose = pose) ∧
    ((KeyframeStep b_add_first_scan_to_key translationThresholdSq cosHalfSq
        st pose).1 = false →
      (KeyframeStep b_add_first_scan_to_key translationThresholdSq cosHalfSq
        st pose).2.last_keyframe_pose = st.last_keyframe_pose) ∧
    (st.b_pcld_received = true →
      KfTranslationExceeds st.last_keyframe_pose pose
        translationThresholdSq = false →
      KfRotationExceeds st.last_keyframe_pose pose cosHalfSq = false →
      (KeyframeStep b_add_first_scan_to_key translationThresholdSq cosHalfSq
        st pose).1 = false) := by
  obtain ⟨received, lastp⟩ := st
  cases hT : KfTranslationExceeds lastp pose translationThresholdSq <;>
    cases hR : KfRotationExceeds lastp pose cosHalfSq <;>
      cases received <;> cases b_add_first_scan_to_key <;>
        simp [KeyframeStep, hT, hR]

/-- Witness for C6: the very first scan is admitted when first-scan-admission
is configured, and the keyframe pose is updated to the scan's pose. -/
theorem keyframe_admission_witness :
    (KeyframeStep true 1 0 ⟨false, Transform3.identity⟩
        ⟨(1, 0, 0), Quat.one⟩).1 = true ∧
    (KeyframeStep true 1 0 ⟨false, Transform3.identity⟩
        ⟨(1, 0, 0), Quat.one⟩).2.last_keyframe_pose = ⟨(1, 0, 0), Quat.one⟩ := by
  have h := keyframe_admission true 1 0 ⟨false, Transform3.identity⟩
    ⟨(1, 0, 0), Quat.one⟩
  have h1 := h.1.mpr (Or.inl ⟨rfl, rfl⟩)
  exact ⟨h1, h.2.1 h1⟩

/-! ### Buffer lemmas -/

/-- Every element of `mapInsert k v buf` is the new entry or an old one. -/
theorem mem_mapInsert {α : Type} {x : Int × α} {k : Int} {v : α} :
    ∀ {buf : List (Int × α)}, x ∈ mapInsert k v buf → x = (k, v) ∨ x ∈ buf := by
  intro buf
  induction buf with
  | nil => intro h; simp [mapInsert] at h; exact Or.inl h
  | cons e rest ih =>
    intro h
    simp only [mapInsert] at h
    split_ifs at h with h1 h2
    · rcases List.mem_cons.mp h with h | h
      · exact Or.inl h
      · exact Or.inr h
    · exact Or.inr h
    · rcases List.mem_cons.mp h with h | h
      · exact Or.inr (List.mem_cons.mpr (Or.inl h))
      · rcases ih h with h | h
        · exact Or.inl h
        · exact Or.inr (List.mem_cons.mpr (Or.inr h))

/-- `mapInsert` preserves the strictly-increasing-keys invariant. -/
theorem mapInsert_sorted {α : Type} (k : Int) (v : α) :
    ∀ {buf : List (Int × α)}, SortedKeys buf → SortedKeys (mapInsert k v buf) := by
  intro buf
  induction buf with
  | nil => intro _; simp [mapInsert, SortedKeys]
  | cons e rest ih =>
    intro h
    rcases List.pairwise_cons.mp h with ⟨hhead, htail⟩
    simp only [mapInsert]
    split_ifs with h1 h2
    · refine List.pairwise_cons.mpr ⟨?_, h⟩
      intro x hx
      rcases List.mem_cons.mp hx with rfl | hx
      · exact h1
      · exact lt_trans h1 (hhead x hx)
    · exact h
    · refine List.pairwise_cons.mpr ⟨?_, ih htail⟩
      intro x hx
      rcases mem_mapInsert hx with rfl | hx
      · omega
      · exact hhead x hx

/-- Inserting at a key already present leaves a sorted buffer unchanged. -/
theorem mapInsert_of_mem {α : Type} {k : Int} {w : α} (v : α) :
    ∀ {buf : List (Int × α)}, SortedKeys buf → (k, w) ∈ buf →
      mapInsert k v buf = buf := by
  intro buf
  induction buf with
  | nil => intro _ h; simp at h
  | cons e rest ih =>
    intro hs h
    rcases List.pairwise_cons.mp hs with ⟨hhead, htail⟩
    rcases List.mem_cons.mp h with rfl | h
    · simp [mapInsert]
    · have hk : e.1 < k := hhead (k, w) h
      simp only [mapInsert]
      rw [if_neg (by omega), if_neg (by omega), ih htail h]

/-- `mapInsert` grows the buffer by at most one entry. -/
theorem mapInsert_length_le {α : Type} (k : Int) (v : α) :
    ∀ (buf : List (Int × α)), (mapInsert k v buf).length ≤ buf.length + 1 := by
  intro buf
  induction buf with
  | nil => simp [mapInsert]
  | cons e rest ih =>
    simp only [mapInsert]
    split_ifs <;> simp_all

/-- Inserting at a fresh key grows the buffer by exactly one entry. -/
theorem mapInsert_length_of_not_mem {α : Type} {k : Int} (v : α) :
    ∀ {buf : List (Int × α)}, (∀ w, (k, w) ∉ buf) →
      (mapInsert k v buf).length = buf.length + 1 := by
  intro buf
  induction buf with
  | nil => intro _; simp [mapInsert]
  | cons e rest ih =>
    intro h
    simp only [mapInsert]
    split_ifs with h1 h2
    · simp
    · exact absurd (List.mem_cons.mpr (Or.inl (by rw [h2]))) (h e.2)
    · have : ∀ w, (k, w) ∉ rest := fun w hw =>
        h w (List.mem_cons.mpr (Or.inr hw))
      simp [ih this]

/-- One bounded insertion preserves sortedness and the size bound. -/
theorem insertStep_preserves {α : Type} (limit : Nat) (k : Int) (v : α)
    {buf : List (Int × α)} (hs : SortedKeys buf) (hl : buf.length ≤ limit) :
    SortedKeys (InsertMsgInBuffer limit k v buf).2 ∧
      (InsertMsgInBuffer limit k v buf).2.length ≤ limit := by
  have hgs : SortedKeys (mapInsert k v buf) := mapInsert_sorted k v hs
  have hgl : (mapInsert k v buf).length ≤ buf.length + 1 := mapInsert_length_le k v buf
  simp only [InsertMsgInBuffer]
  split_ifs with h
  · constructor
    · exact List.Pairwise.sublist (List.drop_sublist 1 _) hgs
    · rw [List.length_drop]
      omega
  · exact ⟨hgs, by omega⟩

/-- The fold of bounded insertions preserves sortedness and the size bound. -/
theorem foldInsertions_go {α : Type} (limit : Nat) :
    ∀ (msgs : List (Int × α)) (buf : List (Int × α)), SortedKeys buf →
      buf.length ≤ limit →
      SortedKeys (msgs.foldl (fun b m => (InsertMsgInBuffer limit m.1 m.2 b).2) buf) ∧
        (msgs.foldl (fun b m => (InsertMsgInBuffer limit m.1 m.2 b).2) buf).length ≤
          limit := by
  intro msgs
  induction msgs with
  | nil => intro buf hs hl; exact ⟨hs, hl⟩
  | cons m rest ih =>
    intro buf hs hl
    have h := insertStep_preserves limit m.1 m.2 hs hl
    exact ih _ h.1 h.2

/-- Claim C3: for every sequence of insertions into an auxiliary measurement
buffer, the size never exceeds the configured limit, and an insertion that
would exceed the limit retains exactly the most recent entries: the result is
the grown buffer with its unique smallest-timestamp entry evicted, every
retained entry having a strictly larger timestamp than the evicted one. -/
theorem buffer_bounded_most_recent {α : Type} (limit : Nat) :
    (∀ msgs : List (Int × α),
      (foldInsertions limit msgs).length ≤ limit ∧
        SortedKeys (foldInsertions limit msgs)) ∧
    (∀ (buf : List (Int × α)) (k : Int) (v : α),
      SortedKeys buf → buf.length ≤ limit →
      limit < (mapInsert k v buf).length →
      ∃ e rest, mapInsert k v buf = e :: rest ∧
        (InsertMsgInBuffer limit k v buf).2 = rest ∧
        ∀ x ∈ rest, e.1 < x.1) := by
  constructor
  · intro msgs
    have h := foldInsertions_go limit msgs [] (by simp [SortedKeys]) (by simp)
    exact ⟨h.2, h.1⟩
  · intro buf k v hs hl hover
    have hgs : SortedKeys (mapInsert k v buf) := mapInsert_sorted k v hs
    obtain ⟨e, rest, hrep⟩ : ∃ e rest, mapInsert k v buf = e :: rest := by
      cases hrepr : mapInsert k v buf with
      | nil => rw [hrepr] at hover; simp at hover
      | cons e rest => exact ⟨e, rest, rfl⟩
    refine ⟨e, rest, hrep, ?_, ?_⟩
    · simp only [InsertMsgInBuffer, hrep]
      rw [if_pos (hrep ▸ hover)]
      simp
    · rw [hrep] at hgs
      exact fun x hx => (List.pairwise_cons.mp hgs).1 x hx

/-- Witness for C3 at a concrete overflowing insertion sequence: with limit 2,
inserting stamps 5, 3, 8 retains the two most recent entries (5 and 8). -/
theorem buffer_bounded_most_recent_witness :
    (foldInsertions (α := Unit) 2 [(5, ()), (3, ()), (8, ())]).length ≤ 2 ∧
    foldInsertions (α := Unit) 2 [(5, ()), (3, ()), (8, ())] = [(5, ()), (8, ())] ∧
    (∃ e rest, mapInsert 8 () [(3, ()), (5, ())] = e :: rest ∧
      (InsertMsgInBuffer 2 8 () [(3, ()), (5, ())]).2 = rest ∧
      ∀ x ∈ rest, e.1 < x.1) := by
  refine ⟨((buffer_bounded_most_recent (α := Unit) 2).1 _).1, by decide, ?_⟩
  exact (buffer_bounded_most_recent (α := Unit) 2).2 [(3, ()), (5, ())] 8 ()
    (by decide) (by decide) (by decide)

/-- Claim C10: the auxiliary buffers hold at most one measurement per
timestamp: inserting at an already-stored timestamp leaves the buffer (hence
the stored entry and the size) unchanged and reports failure, while inserting
at a fresh timestamp reports success. -/
theorem buffer_keyed_by_timestamp {α : Type} (limit : Nat)
    (buf : List (Int × α)) (hs : SortedKeys buf) (hl : buf.length ≤ limit) :
    (∀ (k : Int) (v w : α), (k, w) ∈ buf →
      InsertMsgInBuffer limit k v buf = (false, buf)) ∧
    (∀ (k : Int) (v : α), (∀ w, (k, w) ∉ buf) →
      (InsertMsgInBuffer limit k v buf).1 = true) := by
  constructor
  · intro k v w hmem
    have heq : mapInsert k v buf = buf := mapInsert_of_mem v hs hmem
    simp [InsertMsgInBuffer, heq, Nat.not_lt.mpr hl]
  · intro k v hfresh
    simp [InsertMsgInBuffer, mapInsert_length_of_not_mem v hfresh]

/-- Witness for C10: re-inserting at the stored timestamp 5 is rejected and
leaves the singleton buffer unchanged; inserting at fresh timestamp 6
succeeds. -/
theorem buffer_keyed_by_timestamp_witness :
    InsertMsgInBuffer (α := Unit) 2 5 () [(5, ())] = (false, [(5, ())]) ∧
    (InsertMsgInBuffer (α := Unit) 2 6 () [(5, ())]).1 = true := by
  have h := buffer_keyed_by_timestamp (α := Unit) 2 [(5, ())] (by decide) (by decide)
  exact ⟨h.1 5 () () (by decide), h.2 6 () (by decide)⟩

/-! ### Nearest-time lookup lemmas -/

/-- `nearerTo` returns one of its two candidates. -/
theorem nearerTo_eq_or {α : Type} (t : Int) (b e : Int × α) :
    nearerTo t b e = b ∨ nearerTo t b e = e := by
  simp only [nearerTo]
  split_ifs <;> simp

/-- `nearerTo` is at least as near as the current candidate. -/
theorem nearerTo_dist_le_left {α : Type} (t : Int) (b e : Int × α) :
    ((nearerTo t b e).1 - t).natAbs ≤ (b.1 - t).natAbs := by
  simp only [nearerTo]
  split_ifs with h
  · omega
  · exact le_refl _

/-- `nearerTo` is at least as near as the examined entry. -/
theorem nearerTo_dist_le_right {α : Type} (t : Int) (b e : Int × α) :
    ((nearerTo t b e).1 - t).natAbs ≤ (e.1 - t).natAbs := by
  simp only [nearerTo]
  split_ifs with h
  · exact le_refl _
  · omega

/-- Folding `nearerTo` over a list produces a candidate from the list (or the
seed) that is at least as near as the seed and as every list entry. -/
theorem foldl_nearerTo_spec {α : Type} (t : Int) :
    ∀ (l : List (Int × α)) (b : Int × α),
      (List.foldl (nearerTo t) b l = b ∨ List.foldl (nearerTo t) b l ∈ l) ∧
      ((List.foldl (nearerTo t) b l).1 - t).natAbs ≤ (b.1 - t).natAbs ∧
      ∀ x ∈ l, ((List.foldl (nearerTo t) b l).1 - t).natAbs ≤ (x.1 - t).natAbs := by
  intro l
  induction l with
  | nil => intro b; simp
  | cons e rest ih =>
    intro b
    have hstep : List.foldl (nearerTo t) b (e :: rest) =
        List.foldl (nearerTo t) (nearerTo t b e) rest := rfl
    obtain ⟨hmem, hle, hall⟩ := ih (nearerTo t b e)
    rw [hstep]
    refine ⟨?_, ?_, ?_⟩
    · rcases hmem with h | h
      · rcases nearerTo_eq_or t b e with h2 | h2
        · exact Or.inl (h.trans h2)
        · exact Or.inr (List.mem_cons.mpr (Or.inl (h.trans h2)))
      · exact Or.inr (List.mem_cons.mpr (Or.inr h))
    · exact hle.trans (nearerTo_dist_le_left t b e)
    · intro x hx
      rcases List.mem_cons.mp hx with rfl | hx
      · exact hle.trans (nearerTo_dist_le_right t b x)
      · exact hall x hx

/-- The optional fold underlying `GetMsgAtTime` collapses to the plain
`nearerTo` fold once a candidate exists. -/
theorem getMsg_foldl_some {α : Type} (t : Int) :
    ∀ (l : List (Int × α)) (b : Int × α),
      List.foldl
        (fun acc e =>
          match acc with
          | none => some e
          | some b => some (nearerTo t b e)) (some b) l =
        some (List.foldl (nearerTo t) b l) := by
  intro l
  induction l with
  | nil => intro b; rfl
  | cons e rest ih => intro b; exact ih (nearerTo t b e)

/-- `GetMsgAtTime` on a nonempty buffer is the `nearerTo` fold seeded with the
first entry. -/
theorem getMsgAtTime_cons {α : Type} (t : Int) (e : Int × α)
    (rest : List (Int × α)) :
    GetMsgAtTime t (e :: rest) = some (List.foldl (nearerTo t) e rest) := by
  simp only [GetMsgAtTime, List.foldl_cons]
  exact getMsg_foldl_some t rest e

/-- Claim C7: `GetMsgAtTime` on an empty buffer reports the source unavailable;
on a nonempty buffer it returns a stored entry whose timestamp distance to the
query is minimal among all stored entries. -/
theorem get_msg_at_time_nearest {α : Type} (t : Int) (buf : List (Int × α)) :
    (buf = [] → GetMsgAtTime t buf = none) ∧
    (buf ≠ [] → ∃ e, GetMsgAtTime t buf = some e ∧ e ∈ buf ∧
      ∀ x ∈ buf, (e.1 - t).natAbs ≤ (x.1 - t).natAbs) := by
  constructor
  · intro h; subst h; rfl
  · intro h
    obtain ⟨e, rest, rfl⟩ := List.exists_cons_of_ne_nil h
    obtain ⟨hmem, hle, hall⟩ := foldl_nearerTo_spec t rest e
    refine ⟨List.foldl (nearerTo t) e rest, getMsgAtTime_cons t e rest, ?_, ?_⟩
    · rcases hmem with h2 | h2
      · rw [h2]; exact List.mem_cons_self e rest
      · exact List.mem_cons.mpr (Or.inr h2)
    · intro x hx
      rcases List.mem_cons.mp hx with rfl | hx
      · exact hle
      · exact hall x hx

/-- Witness for C7: querying time 4 in the nonempty buffer with stamps
1, 3, 9 returns a stored entry. -/
theorem get_msg_at_time_nearest_witness :
    GetMsgAtTime (α := Unit) 4 [(1, ()), (3, ()), (9, ())] ≠ none := by
  obtain ⟨e, he, hmem, _⟩ :=
    (get_msg_at_time_nearest (α := Unit) 4 [(1, ()), (3, ()), (9, ())]).2
      (by decide)
  rw [he]
  simp

/-! ### NaN screening and the mode selector -/

/-- One IMU callback preserves the all-NaN-free buffer invariant: a malformed
sample never reaches the buffer. -/
theorem imuCallback_preserves_clean (limit : Nat) (s : LoState) (stamp : Int)
    (q : ImuOrientation) (h : CleanBuffer s.imu_buffer) :
    CleanBuffer (ImuCallback limit s stamp q).imu_buffer := by
  simp only [ImuCallback]
  split_ifs with hq
  · exact h
  · intro e he
    simp only [InsertMsgInBuffer] at he
    have hgrown : e ∈ mapInsert stamp q s.imu_buffer := by
      split_ifs at he with hcase
      · exact (List.drop_sublist 1 _).mem he
      · exact he
    rcases mem_mapInsert hgrown with rfl | hmem
    · exact Bool.not_eq_true _ ▸ (by simpa using hq)
    · exact h e hmem

/-- `GetMsgAtTime` only ever returns stored entries. -/
theorem getMsgAtTime_mem {α : Type} {t : Int} {buf : List (Int × α)}
    {e : Int × α} (h : GetMsgAtTime t buf = some e) : e ∈ buf := by
  cases buf with
  | nil => simp [GetMsgAtTime] at h
  | cons b rest =>
    rw [getMsgAtTime_cons] at h
    have he := Option.some.inj h
    obtain ⟨hmem, -, -⟩ := foldl_nearerTo_spec t rest b
    rw [he] at hmem
    rcases hmem with h2 | h2
    · rw [h2]; exact List.mem_cons_self b rest
    · exact List.mem_cons.mpr (Or.inr h2)

/-- Claim C8: a received IMU sample whose orientation contains a NaN is
discarded rather than used: the callback leaves the state unchanged, the
NaN-free buffer invariant is maintained over every callback sequence, a
nearest-time lookup of a NaN-free buffer never yields a malformed sample (so
no NaN reaches an attitude delta), and after rejecting the sample of an
otherwise empty buffer the IMU source is unavailable for the scan cycle. -/
theorem imu_nan_rejection (limit : Nat) :
    (∀ (s : LoState) (stamp : Int) (q : ImuOrientation), CheckNans q = true →
      ImuCallback limit s stamp q = s) ∧
    (∀ (s : LoState) (samples : List (Int × ImuOrientation)),
      CleanBuffer s.imu_buffer →
      CleanBuffer
        ((samples.foldl (fun st m => ImuCallback limit st m.1 m.2) s)).imu_buffer) ∧
    (∀ (buf : List (Int × ImuOrientation)) (t : Int) (e : Int × ImuOrientation),
      CleanBuffer buf → GetMsgAtTime t buf = some e → CheckNans e.2 = false) ∧
    (∀ (s : LoState) (stamp t : Int) (q : ImuOrientation), CheckNans q = true →
      s.imu_buffer = [] →
      ImuAvailable (ImuCallback limit s stamp q) t = false) := by
  refine ⟨?_, ?_, ?_, ?_⟩
  · intro s stamp q hq
    simp [ImuCallback, hq]
  · intro s samples
    induction samples generalizing s with
    | nil => exact fun h => h
    | cons m rest ih =>
      intro h
      exact ih _ (imuCallback_preserves_clean limit s m.1 m.2 h)
  · intro buf t e hclean he
    exact hclean e (getMsgAtTime_mem he)
  · intro s stamp t q hq hbuf
    simp [ImuCallback, hq, ImuAvailable, ImuSampleAvailable, hbuf, GetMsgAtTime]

/-- Witness for C8: a sample with NaN `x`-component arriving at an empty
buffer is discarded and leaves the IMU source unavailable. -/
theorem imu_nan_rejection_witness :
    ImuCallback 10 ⟨true, true, true, true, [], [], []⟩ 0
        ⟨none, some 0, some 0, some 1⟩ =
      ⟨true, true, true, true, [], [], []⟩ ∧
    ImuAvailable
      (ImuCallback 10 ⟨true, true, true, true, [], [], []⟩ 0
        ⟨none, some 0, some 0, some 1⟩) 0 = false := by
  obtain ⟨h1, _, _, h4⟩ := imu_nan_rejection 10
  exact ⟨h1 ⟨true, true, true, true, [], [], []⟩ 0 ⟨none, some 0, some 0, some 1⟩ rfl,
    h4 ⟨true, true, true, true, [], [], []⟩ 0 0 ⟨none, some 0, some 0, some 1⟩ rfl rfl⟩

/-- Claim C1: the mode selector follows the strict priority
IMU > ODOMETRY > POSE_STAMPED > NONE on every scan: IMU availability selects
IMU regardless of the other sources, otherwise odometry availability selects
ODOMETRY, otherwise pose-stamped availability selects POSE_STAMPED, otherwise
NONE; and the selection is a pure function of the buffer/flag state — the same
state always yields the same mode (no sticky state). -/
theorem mode_selector_priority (s : LoState) (t : Int) :
    (ImuAvailable s t = true → SetDataIntegrationMode s t = .IMU) ∧
    (ImuAvailable s t = false → OdometryAvailable s t = true →
      SetDataIntegrationMode s t = .ODOMETRY) ∧
    (ImuAvailable s t = false → OdometryAvailable s t = false →
      PoseStampedAvailable s t = true →
      SetDataIntegrationMode s t = .POSE_STAMPED) ∧
    (ImuAvailable s t = false → OdometryAvailable s t = false →
      PoseStampedAvailable s t = false →
      SetDataIntegrationMode s t = .NONE) ∧
    (∀ (s2 : LoState) (t2 : Int), s = s2 → t = t2 →
      SetDataIntegrationMode s t = SetDataIntegrationMode s2 t2) := by
  refine ⟨?_, ?_, ?_, ?_, ?_⟩
  · intro h; simp [SetDataIntegrationMode, h]
  · intro h1 h2; simp [SetDataIntegrationMode, h1, h2]
  · intro h1 h2 h3; simp [SetDataIntegrationMode, h1, h2, h3]
  · intro h1 h2 h3; simp [SetDataIntegrationMode, h1, h2, h3]
  · intro s2 t2 hs ht; subst hs; subst ht; rfl

/-- Witness for C1: with a NaN-free IMU sample buffered and all flags set, the
selector picks IMU even though odometry and pose-stamped samples are also
buffered; with the IMU buffer empty it falls back to ODOMETRY. -/
theorem mode_selector_priority_witness :
    SetDataIntegrationMode
      ⟨true, true, true, true, [(0, ⟨some 0, some 0, some 0, some 1⟩)],
        [(0, ())], [(0, ())]⟩ 0 = .IMU ∧
    SetDataIntegrationMode
      ⟨true, true, true, true, [], [(0, ())], [(0, ())]⟩ 0 = .ODOMETRY := by
  constructor
  · exact (mode_selector_priority
      ⟨true, true, true, true, [(0, ⟨some 0, some 0, some 0, some 1⟩)],
        [(0, ())], [(0, ())]⟩ 0).1 rfl
  · exact (mode_selector_priority
      ⟨true, true, true, true, [], [(0, ())], [(0, ())]⟩ 0).2.1 rfl rfl

/-! ### Synchronizer ordering lemmas -/

/-- Unfolding of the comparator-induced order: `a` may precede `b` iff its
time is no later, and on equal times its type enumerator is no larger. -/
theorem ttle_iff (a b : TimestampedType) :
    TTle a b ↔ a.time ≤ b.time ∧ (a.time = b.time → a.type.val ≤ b.type.val) := by
  simp only [TTle, CompareTimestamps, Bool.or_eq_false_iff, Bool.and_eq_false_iff,
    decide_eq_false_iff_not, beq_eq_false_iff_ne, ne_eq, not_lt]
  omega

instance : IsTotal TimestampedType TTle :=
  ⟨fun a b => by rw [ttle_iff, ttle_iff]; omega⟩

instance : IsTrans TimestampedType TTle :=
  ⟨fun a b c hab hbc => by
    rw [ttle_iff] at *
    omega⟩

instance : IsRefl TimestampedType TTle :=
  ⟨fun a => by rw [ttle_iff]; omega⟩

/-- The combined ordering built by `SortMessages` is sorted under the
comparator-induced order. -/
theorem sortMessages_sorted (s : SyncState) :
    List.Sorted TTle (SortMessages s).sensor_ordering :=
  List.sorted_insertionSort TTle s.allEntries

/-- The first component of `GetNextMessage` is the cursor entry's
`(type, index)` pair, when the cursor is in range. -/
theorem getNext_fst (s : SyncState) :
    (GetNextMessage s).1 =
      (s.sensor_ordering[s.pending_index]?).map (fun e => (e.type, e.index)) := by
  cases h : s.sensor_ordering[s.pending_index]? <;> simp [GetNextMessage, h]

/-- Repeated `GetNextMessage` calls never change the combined ordering. -/
theorem stateAfter_ordering (n : Nat) :
    ∀ s : SyncState, (stateAfterGetNext s n).sensor_ordering = s.sensor_ordering := by
  induction n with
  | zero => intro s; rfl
  | succ n ih =>
    intro s
    rw [stateAfterGetNext, ih]
    cases h : s.sensor_ordering[s.pending_index]? <;> simp [GetNextMessage, h]

/-- The cursor after `n` calls: it advances one entry per successful call and
saturates at the end of the ordering. -/
theorem stateAfter_index (n : Nat) :
    ∀ s : SyncState,
      (stateAfterGetNext s n).pending_index =
        min (s.pending_index + n)
          (max s.sensor_ordering.length s.pending_index) := by
  induction n with
  | zero =>
    intro s
    simp only [stateAfterGetNext]
    omega
  | succ n ih =>
    intro s
    rw [stateAfterGetNext, ih]
    cases h : s.sensor_ordering[s.pending_index]? with
    | none =>
      have hlen : s.sensor_ordering.length ≤ s.pending_index := by
        by_contra hcon
        rw [List.getElem?_eq_getElem (by omega)] at h
        simp at h
      simp only [GetNextMessage, h]
      omega
    | some e =>
      have hlt : s.pending_index < s.sensor_ordering.length := by
        obtain ⟨h2, _⟩ := List.getElem?_eq_some_iff.mp h
        exact h2
      simp only [GetNextMessage, h]
      omega

/-- After `SortMessages`, the `(n+1)`-st `GetNextMessage` call yields exactly
the `n`-th entry of the combined ordering. -/
theorem nthYielded_sorted (s : SyncState) (n : Nat) :
    nthYielded (SortMessages s) n =
      ((SortMessages s).sensor_ordering[n]?).map (fun e => (e.type, e.index)) := by
  have hidx0 : (SortMessages s).pending_index = 0 := rfl
  rw [nthYielded, getNext_fst, stateAfter_ordering, stateAfter_index, hidx0]
  rcases Nat.lt_or_ge n (SortMessages s).sensor_ordering.length with h | h
  · have heq : min (0 + n) (max (SortMessages s).sensor_ordering.length 0) = n := by
      omega
    rw [heq]
  · have h1 : (SortMessages s).sensor_ordering[min (0 + n)
        (max (SortMessages s).sensor_ordering.length 0)]? = none :=
      List.getElem?_eq_none (by omega)
    have h2 : (SortMessages s).sensor_ordering[n]? = none :=
      List.getElem?_eq_none h
    rw [h1, h2]

/-- Every record of `tagQueue` carries its queue's stamp at its index. -/
theorem mem_tagQueue {ty : SensorType} {q : List Int} {e : TimestampedType}
    (h : e ∈ tagQueue ty q) : e.type = ty ∧ q[e.index]? = some e.time := by
  simp only [tagQueue, List.mem_map, List.mem_range] at h
  obtain ⟨i, hi, rfl⟩ := h
  refine ⟨rfl, ?_⟩
  simp only
  rw [List.getElem?_eq_getElem hi]
  exact congrArg some (List.getD_eq_getElem q 0 hi).symm

/-- A record taken from the tagged queue of its own type references a real
message: the queue holds, at the record's index, exactly its timestamp. -/
theorem stampOf_of_mem_tagQueue {s : SyncState} {ty : SensorType}
    {e : TimestampedType} (h : e ∈ tagQueue ty (s.queueOf ty)) :
    s.stampOf e.type e.index = some e.time := by
  obtain ⟨hty, hq⟩ := mem_tagQueue h
  simp only [SyncState.stampOf, hty]
  exact hq

/-- Every record of the combined entry list references a real message: the
queue of its type holds, at its index, exactly its timestamp. -/
theorem mem_allEntries_stamp {s : SyncState} {e : TimestampedType}
    (h : e ∈ s.allEntries) : s.stampOf e.type e.index = some e.time := by
  simp only [SyncState.allEntries] at h
  rcases List.mem_append.mp h with h | h
  · rcases List.mem_append.mp h with h | h
    · rcases List.mem_append.mp h with h | h
      · rcases List.mem_append.mp h with h | h
        · exact stampOf_of_mem_tagQueue h
        · exact stampOf_of_mem_tagQueue h
      · exact stampOf_of_mem_tagQueue h
    · exact stampOf_of_mem_tagQueue h
  · exact stampOf_of_mem_tagQueue h

/-- Sorting permutes the entry records, so ordering membership comes from the
queues. -/
theorem mem_sortMessages_ordering {s : SyncState} {e : TimestampedType}
    (h : e ∈ (SortMessages s).sensor_ordering) : e ∈ s.allEntries := by
  have h2 : e ∈ List.insertionSort TTle s.allEntries := h
  rwa [List.mem_insertionSort] at h2

/-- Claim C2: after `SortMessages`, repeated `GetNextMessage` calls yield the
messages in non-decreasing timestamp order, entries with equal timestamps
coming in ascending `sensor_type` enumerator order; moreover every yielded
`(type, index)` pair references a message actually stored in its queue. -/
theorem synchronizer_replay_order (s : SyncState) :
    (∀ (i j : Nat) (a b : SensorType × Nat) (ta tb : Int), i ≤ j →
      nthYielded (SortMessages s) i = some a →
      nthYielded (SortMessages s) j = some b →
      s.stampOf a.1 a.2 = some ta → s.stampOf b.1 b.2 = some tb →
      ta ≤ tb ∧ (ta = tb → a.1.val ≤ b.1.val)) ∧
    (∀ (i : Nat) (a : SensorType × Nat),
      nthYielded (SortMessages s) i = some a →
      ∃ ta, s.stampOf a.1 a.2 = some ta) := by
  have hsorted := sortMessages_sorted s
  constructor
  · intro i j a b ta tb hij hi hj hta htb
    rw [nthYielded_sorted] at hi hj
    obtain ⟨ea, hia, rfl⟩ := Option.map_eq_some'.mp hi
    obtain ⟨eb, hjb, rfl⟩ := Option.map_eq_some'.mp hj
    obtain ⟨hilt, hieq⟩ := List.getElem?_eq_some_iff.mp hia
    obtain ⟨hjlt, hjeq⟩ := List.getElem?_eq_some_iff.mp hjb
    have hrel : TTle ea eb := by
      have hr := hsorted.rel_get_of_le
        (a := ⟨i, hilt⟩) (b := ⟨j, hjlt⟩) (Fin.mk_le_mk.mpr hij)
      simpa [List.get_eq_getElem, hieq, hjeq] using hr
    rw [ttle_iff] at hrel
    have hsa := mem_allEntries_stamp
      (mem_sortMessages_ordering (hieq ▸ List.getElem_mem hilt))
    have hsb := mem_allEntries_stamp
      (mem_sortMessages_ordering (hjeq ▸ List.getElem_mem hjlt))
    simp only at hta htb
    rw [hsa] at hta
    rw [hsb] at htb
    cases hta
    cases htb
    exact hrel
  · intro i a hi
    rw [nthYielded_sorted] at hi
    obtain ⟨ea, hia, rfl⟩ := Option.map_eq_some'.mp hi
    obtain ⟨hilt, hieq⟩ := List.getElem?_eq_some_iff.mp hia
    exact ⟨ea.time, mem_allEntries_stamp
      (mem_sortMessages_ordering (hieq ▸ List.getElem_mem hilt))⟩

/-- Witness for C2: with a point cloud at time 7 and IMU and odometry samples
both at time 5, replay yields the IMU entry (enum value 2) before the odometry
entry (enum value 3), both before the later point cloud. -/
theorem synchronizer_replay_order_witness :
    (5 : Int) ≤ 5 ∧ ((5 : Int) = 5 →
      SensorType.val .IMU ≤ SensorType.val .ODOM) :=
  (synchronizer_replay_order ⟨[7], [], [5], [5], [], 0, []⟩).1 0 1
    (.IMU, 0) (.ODOM, 0) 5 5 (by decide) (by decide) (by decide)
    (by decide) (by decide)

/-- Claim C9: after `SortMessages`, `NextMessageExists` is true exactly while
the cursor has not consumed all entries of the combined ordering (it turns
false precisely once the last entry has been returned), and `ClearMessages`
empties every queue, resets the cursor and the ordering, and leaves the
synchronizer in the empty state where `NextMessageExists` is false. -/
theorem synchronizer_cursor_semantics (s : SyncState) :
    (∀ k : Nat,
      NextMessageExists (stateAfterGetNext (SortMessages s) k) = true ↔
        k < (SortMessages s).sensor_ordering.length) ∧
    ((ClearMessages s).pending_pclds = [] ∧
      (ClearMessages s).pending_pcl_pclds = [] ∧
      (ClearMessages s).pending_imus = [] ∧
      (ClearMessages s).pending_odoms = [] ∧
      (ClearMessages s).pending_gts = [] ∧
      (ClearMessages s).pending_index = 0 ∧
      (ClearMessages s).sensor_ordering = [] ∧
      NextMessageExists (ClearMessages s) = false) := by
  constructor
  · intro k
    have hidx0 : (SortMessages s).pending_index = 0 := rfl
    simp only [NextMessageExists, stateAfter_ordering, stateAfter_index, hidx0,
      decide_eq_true_eq]
    omega
  · exact ⟨rfl, rfl, rfl, rfl, rfl, rfl, rfl, rfl⟩

/-- Witness for C9: with a single queued IMU message, `NextMessageExists` is
true before the first `GetNextMessage` and false right after it. -/
theorem synchronizer_cursor_semantics_witness :
    NextMessageExists (stateAfterGetNext (SortMessages ⟨[], [], [7], [], [], 0, []⟩) 0) = true ∧
    NextMessageExists (stateAfterGetNext (SortMessages ⟨[], [], [7], [], [], 0, []⟩) 1) = false := by
  have h := (synchronizer_cursor_semantics ⟨[], [], [7], [], [], 0, []⟩).1
  constructor
  · exact (h 0).mpr (by decide)
  · cases hb : NextMessageExists
      (stateAfterGetNext (SortMessages ⟨[], [], [7], [], [], 0, []⟩) 1) with
    | false => rfl
    | true => exact absurd ((h 1).mp hb) (by decide)

end Locus
